import Mathlib

/-!
Verification of the MNIST training/evaluation driver (`src/mnist/main.py`)
via a shallow embedding.  The external numeric library (tensor ops, the
Adadelta optimizer update rule, backpropagation, the CNN forward pass) is
modelled as an opaque oracle; the driver logic — the epoch loop, the
training pass with its logging and dry-run early exit, the evaluation pass
with its loss/accuracy bookkeeping, the StepLR learning-rate schedule, the
DataLoader keyword-argument construction, and the final save — is embedded
faithfully, line by line, from the source.
-/

namespace Mnist

/-- A dataset sample: an abstract image token and an integer class label. -/
structure Sample where
  img : Nat
  lab : Nat
  deriving Repr, DecidableEq

/-- The resolved command-line configuration (argparse defaults in
`main.py` lines 42-51).  `epochs` is an `Int` because argparse accepts
negative integers for `--epochs`. -/
structure Args where
  batch_size : Nat
  test_batch_size : Nat
  epochs : Int
  lr : ℚ
  gamma : ℚ
  no_cuda : Bool
  dry_run : Bool
  seed : Nat
  log_interval : Nat
  save_model : Bool
  deriving Repr, DecidableEq

/-- The argparse defaults of `main.py` lines 42-51. -/
def defaultArgs : Args :=
  { batch_size := 64, test_batch_size := 1000, epochs := 14, lr := 1,
    gamma := 7/10, no_cuda := false, dry_run := false, seed := 1,
    log_interval := 10, save_model := false }

/-- `use_cuda = not args.no_cuda and torch.cuda.is_available()` (line 53). -/
def useCuda (args : Args) (cuda_available : Bool) : Bool :=
  !args.no_cuda && cuda_available

/-- The DataLoader keyword arguments the driver builds (lines 58-63).
Defaults are the `torch.utils.data.DataLoader` defaults:
`num_workers=0, pin_memory=False, shuffle=False`. -/
structure LoaderKwargs where
  batch_size : Nat
  num_workers : Nat
  pin_memory : Bool
  shuffle : Bool
  deriving Repr, DecidableEq

/-- `train_kwargs = {'batch_size': args.batch_size}`, then
`if use_cuda: train_kwargs.update(cuda_kwargs)` with
`cuda_kwargs = {'num_workers': 1, 'pin_memory': True, 'shuffle': True}`
(lines 58-62). -/
def mkTrainKwargs (args : Args) (cuda_available : Bool) : LoaderKwargs :=
  if useCuda args cuda_available then
    { batch_size := args.batch_size, num_workers := 1, pin_memory := true,
      shuffle := true }
  else
    { batch_size := args.batch_size, num_workers := 0, pin_memory := false,
      shuffle := false }

/-- `test_kwargs = {'batch_size': args.test_batch_size}`, then
`if use_cuda: test_kwargs.update(cuda_kwargs)` (lines 59-63). -/
def mkTestKwargs (args : Args) (cuda_available : Bool) : LoaderKwargs :=
  if useCuda args cuda_available then
    { batch_size := args.test_batch_size, num_workers := 1,
      pin_memory := true, shuffle := true }
  else
    { batch_size := args.test_batch_size, num_workers := 0,
      pin_memory := false, shuffle := false }

/-- Split a list into consecutive chunks of size `bs` (the last chunk may
be shorter), with fuel to guarantee termination. -/
def chunksAux (bs : Nat) : Nat → List α → List (List α)
  | 0, _ => []
  | _ + 1, [] => []
  | fuel + 1, a :: l => (a :: l).take bs :: chunksAux bs fuel ((a :: l).drop bs)

/-- DataLoader batching without shuffling: consecutive chunks of the
dataset in order; the last batch may be smaller than `bs`. -/
def chunks (bs : Nat) (l : List α) : List (List α) :=
  chunksAux bs l.length l

/-- A linear congruential step: the deterministic pseudo-random stream
seeded by `torch.manual_seed(args.seed)` (line 55). -/
def lcg (s : Nat) : Nat := (s * 1103515245 + 12345) % 2147483648

/-- Fisher-Yates-style deterministic shuffle driven by the seed stream
(fuelled pick-and-remove). -/
def shuffleGo : Nat → Nat → List α → List α
  | 0, _, l => l
  | _ + 1, _, [] => []
  | fuel + 1, s, a :: l =>
    let i := s % (a :: l).length
    (a :: l).getD i a :: shuffleGo fuel (lcg s) ((a :: l).eraseIdx i)

/-- One fresh shuffle of a list, as the DataLoader performs per epoch when
`shuffle=True`, consuming the global seeded RNG. -/
def shuffleWith (s : Nat) (l : List α) : List α := shuffleGo l.length s l

/-- The batch sequence a DataLoader yields for one full pass, together
with the advanced RNG state: a fresh shuffle is drawn from the seeded RNG
if and only if the loader was built with `shuffle=True`. -/
def epochBatches (kw : LoaderKwargs) (rng : Nat) (ds : List Sample) :
    List (List Sample) × Nat :=
  if kw.shuffle then (chunks kw.batch_size (shuffleWith rng ds), lcg rng)
  else (chunks kw.batch_size ds, rng)

/-- The external collaborators, per the model/optimizer contracts: a
per-sample forward function producing per-class log-probabilities (the CNN
applies independently to each sample of a batch), and an opaque
backward-plus-Adadelta step that consumes the current learning rate and
one batch and updates parameters and optimizer state in place.  `P` is the
parameter state, `O` the optimizer's internal adaptive state. -/
structure Oracle (P O : Type) where
  forward : P → Bool → Nat → List ℚ
  step : ℚ → P → O → List Sample → P × O

/-- `F.nll_loss` on one sample whose model output is the log-probability
vector `out`: the negated log-probability of the true class. -/
def nll (out : List ℚ) (t : Nat) : ℚ := -(out.getD t 0)

/-- `F.nll_loss(output, target)` with the default `reduction='mean'`
(line 16): mean of per-sample negative log-likelihoods over the batch. -/
def batchLoss (o : Oracle P O) (p : P) (mode : Bool) (b : List Sample) : ℚ :=
  ((b.map fun s => nll (o.forward p mode s.img) s.lab).sum) / b.length

/-- `F.nll_loss(output, target, reduction='sum')` (line 32): summed
per-sample negative log-likelihood over the batch. -/
def batchSumLoss (o : Oracle P O) (p : P) (b : List Sample) : ℚ :=
  (b.map fun s => nll (o.forward p false s.img) s.lab).sum

/-- `output.argmax(dim=1)`: index of the (first) maximal log-probability. -/
def argmaxGo : List ℚ → Nat → Nat → ℚ → Nat
  | [], _, best, _ => best
  | x :: xs, i, best, bestv =>
    if bestv < x then argmaxGo xs (i + 1) i x else argmaxGo xs (i + 1) best bestv

/-- Index of the first maximal entry of a log-probability vector. -/
def argmaxIdx : List ℚ → Nat
  | [] => 0
  | x :: xs => argmaxGo xs 1 0 x

/-- `pred.eq(target.view_as(pred)).sum().item()` for one batch (line 34):
how many samples the model classifies correctly. -/
def batchCorrect (o : Oracle P O) (p : P) (b : List Sample) : Nat :=
  b.countP fun s => argmaxIdx (o.forward p false s.img) == s.lab

/-- The model as the driver sees it: its parameters plus the train/eval
mode flag toggled by `model.train()` / `model.eval()`. -/
structure NetState (P : Type) where
  params : P
  trainingMode : Bool

/-- One progress observation printed by the training pass (line 20). -/
structure TrainLog where
  epoch : Int
  idx : Nat
  samplesSoFar : Nat
  totalSamples : Nat
  pct : ℚ
  loss : ℚ

/-- Result of one training pass: updated parameters and optimizer state,
the emitted progress observations, and the 0-based indices of the batches
actually processed. -/
structure TrainResult (P O : Type) where
  params : P
  opt : O
  logs : List TrainLog
  processed : List Nat

/-- The training-pass batch loop (`train`, lines 12-22): for each batch,
compute the mean NLL loss, apply one optimizer step at the current
learning rate, then — when `batch_idx % log_interval == 0` — emit a
progress observation and, if `dry_run`, break out of the loop. -/
def trainGo (o : Oracle P O) (args : Args) (epoch : Int)
    (total numBatches : Nat) (lr : ℚ) :
    Nat → P → O → List (List Sample) → TrainResult P O
  | _, p, st, [] => { params := p, opt := st, logs := [], processed := [] }
  | i, p, st, b :: rest =>
    let loss := batchLoss o p true b
    let (p', st') := o.step lr p st b
    let log : TrainLog :=
      { epoch := epoch, idx := i, samplesSoFar := i * b.length,
        totalSamples := total, pct := 100 * i / numBatches, loss := loss }
    if i % args.log_interval == 0 then
      if args.dry_run then
        { params := p', opt := st', logs := [log], processed := [i] }
      else
        let r := trainGo o args epoch total numBatches lr (i + 1) p' st' rest
        { params := r.params, opt := r.opt, logs := log :: r.logs,
          processed := i :: r.processed }
    else
      let r := trainGo o args epoch total numBatches lr (i + 1) p' st' rest
      { params := r.params, opt := r.opt, logs := r.logs,
        processed := i :: r.processed }

/-- The full training pass (`train`, lines 10-22): put the model in
training mode, then run the batch loop from index 0. -/
def train (o : Oracle P O) (args : Args) (epoch : Int) (total : Nat)
    (lr : ℚ) (net : NetState P) (st : O) (batches : List (List Sample)) :
    NetState P × TrainResult P O :=
  let r := trainGo o args epoch total batches.length lr 0 net.params st batches
  ({ params := r.params, trainingMode := true }, r)

/-- The summary statistics of one evaluation pass (line 38). -/
structure EvalStats where
  avgLoss : ℚ
  correct : Nat
  total : Nat
  accuracyPct : ℚ

/-- The evaluation-pass batch loop (`test`, lines 29-34): accumulate the
summed batch loss into `test_loss` and the correct-prediction count into
`correct`, over every batch (no early exit). -/
def testGo (o : Oracle P O) (p : P) :
    List (List Sample) → ℚ → Nat → ℚ × Nat
  | [], tl, c => (tl, c)
  | b :: rest, tl, c =>
    testGo o p rest (tl + batchSumLoss o p b) (c + batchCorrect o p b)

/-- The full evaluation pass (`test`, lines 24-38): put the model in
evaluation mode, run over every batch under `torch.no_grad()` (no
parameter or optimizer mutation), then divide the cumulative loss by the
dataset size — `len(test_loader.dataset)`, not batch_count x batch_size —
and report accuracy as a percentage of the dataset size. -/
def test (o : Oracle P O) (net : NetState P) (batches : List (List Sample))
    (dsSize : Nat) : NetState P × EvalStats :=
  let r := testGo o net.params batches 0 0
  ({ params := net.params, trainingMode := false },
   { avgLoss := r.1 / dsSize, correct := r.2, total := dsSize,
     accuracyPct := 100 * r.2 / dsSize })

/-- What one iteration of the epoch loop (lines 74-77) leaves behind:
which epoch ran, the learning rate its optimizer steps used, the training
batch ordering it consumed, the progress observations, the processed batch
indices, and the evaluation summary. -/
structure EpochRecord where
  epoch : Int
  lrUsed : ℚ
  trainOrder : List (List Sample)
  trainLogs : List TrainLog
  processed : List Nat
  evalSummary : EvalStats

/-- The mutable state threaded through the epoch loop: model, optimizer
state, the scheduler's current learning rate, and the seeded RNG. -/
structure RunState (P O : Type) where
  net : NetState P
  opt : O
  lr : ℚ
  rng : Nat

/-- The epoch loop (lines 74-77): for each epoch, one training pass, then
one evaluation pass, then one `scheduler.step()` — StepLR with
`step_size=1` multiplies the current learning rate by `gamma` once per
epoch, after the evaluation pass, so the epoch just run used the pre-decay
rate. -/
def runLoop (o : Oracle P O) (args : Args) (tkw ekw : LoaderKwargs)
    (dsT dsE : List Sample) :
    List Int → RunState P O → RunState P O × List EpochRecord
  | [], s => (s, [])
  | e :: rest, s =>
    let tb := epochBatches tkw s.rng dsT
    let tr := (train o args e dsT.length s.lr s.net s.opt tb.1).2
    let eb := epochBatches ekw tb.2 dsE
    let t := test o { params := tr.params, trainingMode := true } eb.1 dsE.length
    let s' : RunState P O :=
      { net := t.1, opt := tr.opt, lr := s.lr * args.gamma, rng := eb.2 }
    let rec_ := runLoop o args tkw ekw dsT dsE rest s'
    (rec_.1,
     { epoch := e, lrUsed := s.lr, trainOrder := tb.1, trainLogs := tr.logs,
       processed := tr.processed, evalSummary := t.2 } :: rec_.2)

/-- `range(1, args.epochs + 1)`: the 1-indexed epochs the loop visits;
empty whenever `args.epochs <= 0`. -/
def epochIdxs (epochs : Int) : List Int :=
  (List.range epochs.toNat).map fun i => Int.ofNat i + 1

/-- The outcome of a whole run: final state, per-epoch trace, and the
artifact persisted by `torch.save(model.state_dict(), "mnist_cnn.pt")`
when `save_model` is set (lines 79-80). -/
structure RunResult (P O : Type) where
  state : RunState P O
  trace : List EpochRecord
  saved : Option (String × P)

/-- The whole driver (lines 53-80): seed the RNG, build the loader
kwargs, run the epoch loop starting from the initial model (a fresh
`nn.Module` is in training mode) at the configured learning rate, then
save the final parameter state iff `save_model`. -/
def run (o : Oracle P O) (args : Args) (cuda_available : Bool)
    (dsT dsE : List Sample) (p0 : P) (o0 : O) : RunResult P O :=
  let st := runLoop o args (mkTrainKwargs args cuda_available)
    (mkTestKwargs args cuda_available) dsT dsE (epochIdxs args.epochs)
    { net := { params := p0, trainingMode := true }, opt := o0,
      lr := args.lr, rng := args.seed }
  { state := st.1, trace := st.2,
    saved := if args.save_model then some ("mnist_cnn.pt", st.1.net.params)
             else none }

/-! ### Fallible variant

Any numeric failure inside forward/backward/optimizer-step is fatal and
aborts the run (an uncaught exception in Python); the fallible oracle and
driver make that explicit with `Except`. -/

/-- External collaborators that may fail with a `ComputationError`. -/
structure OracleE (P O : Type) where
  forward : P → Bool → Nat → Except Unit (List ℚ)
  step : ℚ → P → O → List Sample → Except Unit (P × O)

/-- Mean-NLL batch loss with a fallible forward pass. -/
def batchLossE (o : OracleE P O) (p : P) (mode : Bool) (b : List Sample) :
    Except Unit ℚ := do
  let ls ← b.mapM fun s => do
    let out ← o.forward p mode s.img
    pure (nll out s.lab)
  pure (ls.sum / b.length)

/-- Sum-NLL batch loss with a fallible forward pass. -/
def batchSumLossE (o : OracleE P O) (p : P) (b : List Sample) :
    Except Unit ℚ := do
  let ls ← b.mapM fun s => do
    let out ← o.forward p false s.img
    pure (nll out s.lab)
  pure ls.sum

/-- Correct-prediction count of one batch with a fallible forward pass. -/
def batchCorrectE (o : OracleE P O) (p : P) (b : List Sample) :
    Except Unit Nat := do
  let oks ← b.mapM fun s => do
    let out ← o.forward p false s.img
    pure (argmaxIdx out == s.lab)
  pure (oks.countP id)

/-- Fallible training-pass batch loop: identical control flow to
`trainGo`, except a failing batch computation aborts the pass. -/
def trainGoE (o : OracleE P O) (args : Args) (epoch : Int)
    (total numBatches : Nat) (lr : ℚ) :
    Nat → P → O → List (List Sample) → Except Unit (TrainResult P O)
  | _, p, st, [] => pure { params := p, opt := st, logs := [], processed := [] }
  | i, p, st, b :: rest => do
    let loss ← batchLossE o p true b
    let (p', st') ← o.step lr p st b
    let log : TrainLog :=
      { epoch := epoch, idx := i, samplesSoFar := i * b.length,
        totalSamples := total, pct := 100 * i / numBatches, loss := loss }
    if i % args.log_interval == 0 then
      if args.dry_run then
        pure { params := p', opt := st', logs := [log], processed := [i] }
      else do
        let r ← trainGoE o args epoch total numBatches lr (i + 1) p' st' rest
        pure { params := r.params, opt := r.opt, logs := log :: r.logs,
               processed := i :: r.processed }
    else do
      let r ← trainGoE o args epoch total numBatches lr (i + 1) p' st' rest
      pure { params := r.params, opt := r.opt, logs := r.logs,
             processed := i :: r.processed }

/-- Fallible evaluation-pass batch loop. -/
def testGoE (o : OracleE P O) (p : P) :
    List (List Sample) → ℚ → Nat → Except Unit (ℚ × Nat)
  | [], tl, c => pure (tl, c)
  | b :: rest, tl, c => do
    let l ← batchSumLossE o p b
    let k ← batchCorrectE o p b
    testGoE o p rest (tl + l) (c + k)

/-- Fallible evaluation pass. -/
def testE (o : OracleE P O) (net : NetState P)
    (batches : List (List Sample)) (dsSize : Nat) :
    Except Unit (NetState P × EvalStats) := do
  let r ← testGoE o net.params batches 0 0
  pure ({ params := net.params, trainingMode := false },
        { avgLoss := r.1 / dsSize, correct := r.2, total := dsSize,
          accuracyPct := 100 * r.2 / dsSize })

/-- Fallible epoch loop: the first failing pass aborts the run with no
further epochs and no save. -/
def runLoopE (o : OracleE P O) (args : Args) (tkw ekw : LoaderKwargs)
    (dsT dsE : List Sample) :
    List Int → RunState P O → Except Unit (RunState P O × List EpochRecord)
  | [], s => pure (s, [])
  | e :: rest, s => do
    let tb := epochBatches tkw s.rng dsT
    let tr ← trainGoE o args e dsT.length tb.1.length s.lr 0 s.net.params s.opt tb.1
    let net1 : NetState P := { params := tr.params, trainingMode := true }
    let eb := epochBatches ekw tb.2 dsE
    let (net2, stats) ← testE o net1 eb.1 dsE.length
    let s' : RunState P O :=
      { net := net2, opt := tr.opt, lr := s.lr * args.gamma, rng := eb.2 }
    let rec_ ← runLoopE o args tkw ekw dsT dsE rest s'
    pure (rec_.1,
      { epoch := e, lrUsed := s.lr, trainOrder := tb.1, trainLogs := tr.logs,
        processed := tr.processed, evalSummary := stats } :: rec_.2)

/-- The whole driver with failure semantics: either every configured
epoch completes and the save (iff `save_model`) happens at the very end,
or the run aborts with an error and nothing is saved. -/
def runE (o : OracleE P O) (args : Args) (cuda_available : Bool)
    (dsT dsE : List Sample) (p0 : P) (o0 : O) :
    Except Unit (RunResult P O) := do
  let st ← runLoopE o args (mkTrainKwargs args cuda_available)
    (mkTestKwargs args cuda_available) dsT dsE (epochIdxs args.epochs)
    { net := { params := p0, trainingMode := true }, opt := o0,
      lr := args.lr, rng := args.seed }
  pure { state := st.1, trace := st.2,
         saved := if args.save_model then
                    some ("mnist_cnn.pt", st.1.net.params)
                  else none }

/-- Placeholder record, used only as the default of total indexing. -/
def noRecord : EpochRecord :=
  { epoch := 0, lrUsed := 0, trainOrder := [], trainLogs := [],
    processed := [],
    evalSummary := { avgLoss := 0, correct := 0, total := 0, accuracyPct := 0 } }

/-- Placeholder progress observation, used only as the default of total
indexing. -/
def noLog : TrainLog :=
  { epoch := 0, idx := 0, samplesSoFar := 0, totalSamples := 0, pct := 0,
    loss := 0 }

/-- The shuffling policy the specification claims: the training loader
always reshuffles per epoch and the evaluation loader never shuffles, on
both the accelerator and the non-accelerator path. -/
def specShufflePolicy (args : Args) (ca : Bool) : Prop :=
  (mkTrainKwargs args ca).shuffle = true ∧
  (mkTestKwargs args ca).shuffle = false

/-- The sequence of per-epoch training batch orderings one run consumes:
the observable the determinism property quantifies over. -/
def trainOrderings (o : Oracle P O) (args : Args) (ca : Bool)
    (dsT dsE : List Sample) (p0 : P) (o0 : O) : List (List (List Sample)) :=
  (run o args ca dsT dsE p0 o0).trace.map EpochRecord.trainOrder

/-- A concrete external collaborator used to exercise the embedded driver
on small inputs: its forward function emits a fixed log-probability
vector (entries at most 0) and its step bumps a counter so parameter
evolution is visible. -/
def demoOracle : Oracle Nat Nat where
  forward := fun _ _ img => [-(1 : ℚ), -(2 : ℚ), -(((img % 3 : Nat) : ℚ))]
  step := fun _ p st _ => (p + 1, st + 1)

/-- Fallible variant of the demo collaborator; it never actually fails. -/
def demoOracleE : OracleE Nat Nat where
  forward := fun _ _ _ => Except.ok [-(1 : ℚ), -(2 : ℚ)]
  step := fun _ p st _ => Except.ok (p + 1, st + 1)

/-- A three-sample training split. -/
def dsTrain3 : List Sample := [⟨0, 1⟩, ⟨1, 0⟩, ⟨2, 1⟩]

/-- A five-sample evaluation split; its odd size makes chunking by 2
leave a smaller final batch. -/
def dsEval5 : List Sample := [⟨3, 0⟩, ⟨4, 1⟩, ⟨5, 2⟩, ⟨6, 0⟩, ⟨7, 1⟩]

/-- A two-epoch configuration. -/
def cArgs1 : Args := { defaultArgs with epochs := 2 }

/-- A one-epoch dry-run configuration with a small batch size. -/
def cArgs2 : Args :=
  { defaultArgs with epochs := 1, dry_run := true, batch_size := 2 }

/-- A configuration with a negative epoch count and saving enabled. -/
def cArgs10 : Args := { defaultArgs with epochs := -3, save_model := true }

/-! ### Supporting lemmas -/

theorem chunksAux_flatten {α : Type _} (bs : Nat) (hbs : 1 ≤ bs) :
    ∀ (fuel : Nat) (l : List α), l.length ≤ fuel →
      (chunksAux bs fuel l).flatten = l := by
  intro fuel
  induction fuel with
  | zero =>
    intro l hl
    have h0 : l = [] := List.length_eq_zero.mp (Nat.le_zero.mp hl)
    subst h0; rfl
  | succ n ih =>
    intro l hl
    match l with
    | [] => rfl
    | a :: t =>
      show ((a :: t).take bs :: chunksAux bs n ((a :: t).drop bs)).flatten = a :: t
      rw [List.flatten_cons, ih]
      · exact List.take_append_drop bs (a :: t)
      · rw [List.length_drop]
        simp only [List.length_cons] at hl ⊢
        omega

/-- Chunking then concatenating recovers the dataset: the batches of one
pass cover every sample exactly once, in order. -/
theorem chunks_flatten {α : Type _} (bs : Nat) (hbs : 1 ≤ bs) (l : List α) :
    (chunks bs l).flatten = l :=
  chunksAux_flatten bs hbs l.length l le_rfl

theorem chunks_ne_nil {α : Type _} (bs : Nat) (l : List α) (hl : l ≠ []) :
    chunks bs l ≠ [] := by
  match l with
  | [] => exact absurd rfl hl
  | a :: t =>
    show chunksAux bs (a :: t).length (a :: t) ≠ []
    rw [List.length_cons]
    exact fun h => List.noConfusion h

theorem shuffleGo_length {α : Type _} :
    ∀ (fuel s : Nat) (l : List α), (shuffleGo fuel s l).length = l.length := by
  intro fuel
  induction fuel with
  | zero => intro s l; rfl
  | succ n ih =>
    intro s l
    match l with
    | [] => rfl
    | a :: t =>
      have hi : s % (a :: t).length < (a :: t).length :=
        Nat.mod_lt _ (by simp)
      show ((a :: t).getD _ a :: shuffleGo n (lcg s) _).length = _
      rw [List.length_cons, ih, List.length_eraseIdx_add_one hi]

/-- Shuffling permutes, hence preserves, the dataset size. -/
theorem shuffleWith_length {α : Type _} (s : Nat) (l : List α) :
    (shuffleWith s l).length = l.length :=
  shuffleGo_length l.length s l

theorem shuffleWith_ne_nil {α : Type _} (s : Nat) (l : List α) (hl : l ≠ []) :
    shuffleWith s l ≠ [] := by
  intro h
  apply hl
  have := shuffleWith_length s l
  rw [h] at this
  exact List.length_eq_zero.mp this.symm

/-- The per-epoch batch sequence is non-empty whenever the dataset is. -/
theorem epochBatches_ne_nil (kw : LoaderKwargs) (rng : Nat)
    (ds : List Sample) (hds : ds ≠ []) :
    (epochBatches kw rng ds).1 ≠ [] := by
  unfold epochBatches
  by_cases h : kw.shuffle
  · simp only [h, if_true]
    exact chunks_ne_nil _ _ (shuffleWith_ne_nil rng ds hds)
  · simp only [h, if_false]
    exact chunks_ne_nil _ _ hds

/-- The evaluation fold is the running pair of summed losses and summed
correct counts. -/
theorem testGo_eq (o : Oracle P O) (p : P) :
    ∀ (bs : List (List Sample)) (tl : ℚ) (c : Nat),
      testGo o p bs tl c =
        (tl + (bs.map (batchSumLoss o p)).sum,
         c + (bs.map (batchCorrect o p)).sum) := by
  intro bs
  induction bs with
  | nil => intro tl c; simp [testGo]
  | cons b rest ih =>
    intro tl c
    simp only [testGo, ih, List.map_cons, List.sum_cons]
    rw [Prod.mk.injEq]
    exact ⟨by ring, by omega⟩

/-- Batch 0 always logs (`0 % log_interval == 0`), so a dry run stops
after processing exactly the first batch. -/
theorem trainGo_dry_processed (o : Oracle P O) (args : Args) (e : Int)
    (total n : Nat) (lr : ℚ) (p : P) (st : O) (b : List Sample)
    (rest : List (List Sample)) (hd : args.dry_run = true) :
    (trainGo o args e total n lr 0 p st (b :: rest)).processed = [0] ∧
    (trainGo o args e total n lr 0 p st (b :: rest)).logs.length = 1 := by
  simp [trainGo, Nat.zero_mod, hd]

/-- In a non-dry training pass starting at batch index `i`, the progress
observations are emitted exactly at the batch indices divisible by
`log_interval`. -/
theorem trainGo_logs_idx (o : Oracle P O) (args : Args) (e : Int)
    (total n : Nat) (lr : ℚ) (hd : args.dry_run = false) :
    ∀ (bs : List (List Sample)) (i : Nat) (p : P) (st : O),
      (trainGo o args e total n lr i p st bs).logs.map TrainLog.idx =
        (List.range' i bs.length).filter
          (fun j => j % args.log_interval == 0) := by
  intro bs
  induction bs with
  | nil => intro i p st; simp [trainGo]
  | cons b rest ih =>
    intro i p st
    rw [List.length_cons, List.range'_succ, List.filter_cons]
    simp only [trainGo, hd, Bool.false_eq_true, if_false]
    by_cases h : (i % args.log_interval == 0) = true
    · rw [if_pos h, if_pos h]
      simp only [List.map_cons, ih]
    · rw [if_neg h, if_neg h]
      exact ih (i + 1) _ _

/-- Every progress observation a training pass emits carries the epoch
number, the total training sample count, the completion percentage and
sample count computed from its batch index, and an index divisible by
`log_interval`. -/
theorem trainGo_logs_mem (o : Oracle P O) (args : Args) (e : Int)
    (total n : Nat) (lr : ℚ) :
    ∀ (bs : List (List Sample)) (i : Nat) (p : P) (st : O),
      ∀ lg ∈ (trainGo o args e total n lr i p st bs).logs,
        lg.epoch = e ∧ lg.totalSamples = total ∧
        lg.pct = 100 * lg.idx / n ∧ i ≤ lg.idx ∧
        lg.samplesSoFar = lg.idx * (bs.getD (lg.idx - i) []).length ∧
        lg.idx % args.log_interval = 0 := by
  intro bs
  induction bs with
  | nil => intro i p st lg hlg; simp [trainGo] at hlg
  | cons b rest ih =>
    intro i p st lg hlg
    simp only [trainGo] at hlg
    by_cases h : (i % args.log_interval == 0) = true
    · rw [if_pos h] at hlg
      have hmod : i % args.log_interval = 0 := by simpa using h
      by_cases hd : args.dry_run = true
      · rw [if_pos hd] at hlg
        simp only [List.mem_singleton] at hlg
        subst hlg
        exact ⟨rfl, rfl, rfl, le_refl i, by simp, hmod⟩
      · rw [if_neg hd] at hlg
        simp only [List.mem_cons] at hlg
        rcases hlg with hlg | hlg
        · subst hlg
          exact ⟨rfl, rfl, rfl, le_refl i, by simp, hmod⟩
        · obtain ⟨h1, h2, h3, h4, h5, h6⟩ := ih (i + 1) _ _ lg hlg
          refine ⟨h1, h2, h3, Nat.le_of_succ_le h4, ?_, h6⟩
          rw [h5]
          have hpos : 1 ≤ lg.idx - i := by omega
          have : lg.idx - i = (lg.idx - (i + 1)) + 1 := by omega
          rw [this, List.getD_cons_succ]
    · rw [if_neg h] at hlg
      obtain ⟨h1, h2, h3, h4, h5, h6⟩ := ih (i + 1) _ _ lg hlg
      refine ⟨h1, h2, h3, Nat.le_of_succ_le h4, ?_, h6⟩
      rw [h5]
      have : lg.idx - i = (lg.idx - (i + 1)) + 1 := by omega
      rw [this, List.getD_cons_succ]

/-- Logging is an observability side effect only: in a non-dry training
pass the resulting parameters and optimizer state do not depend on the
logging cadence. -/
theorem trainGo_state_log_interval (o : Oracle P O) (a1 a2 : Args) (e : Int)
    (total n : Nat) (lr : ℚ) (hd1 : a1.dry_run = false)
    (hd2 : a2.dry_run = false) :
    ∀ (bs : List (List Sample)) (i : Nat) (p : P) (st : O),
      ((trainGo o a1 e total n lr i p st bs).params,
       (trainGo o a1 e total n lr i p st bs).opt) =
      ((trainGo o a2 e total n lr i p st bs).params,
       (trainGo o a2 e total n lr i p st bs).opt) := by
  intro bs
  induction bs with
  | nil => intro i p st; rfl
  | cons b rest ih =>
    intro i p st
    simp only [trainGo, hd1, hd2, Bool.false_eq_true, if_false]
    by_cases h1 : (i % a1.log_interval == 0) = true <;>
      by_cases h2 : (i % a2.log_interval == 0) = true
    · rw [if_pos h1, if_pos h2]; exact ih (i + 1) _ _
    · rw [if_pos h1, if_neg h2]; exact ih (i + 1) _ _
    · rw [if_neg h1, if_pos h2]; exact ih (i + 1) _ _
    · rw [if_neg h1, if_neg h2]; exact ih (i + 1) _ _

theorem runLoop_length (o : Oracle P O) (args : Args) (tkw ekw : LoaderKwargs)
    (dsT dsE : List Sample) :
    ∀ (es : List Int) (s : RunState P O),
      (runLoop o args tkw ekw dsT dsE es s).2.length = es.length := by
  intro es
  induction es with
  | nil => intro s; rfl
  | cons e rest ih =>
    intro s
    simp only [runLoop, List.length_cons, ih]

/-- The learning rate fed to the optimizer steps of the `k`-th recorded
epoch is the incoming rate decayed `k` times. -/
theorem runLoop_lrUsed (o : Oracle P O) (args : Args) (tkw ekw : LoaderKwargs)
    (dsT dsE : List Sample) :
    ∀ (es : List Int) (s : RunState P O) (k : Nat), k < es.length →
      ((runLoop o args tkw ekw dsT dsE es s).2.getD k noRecord).lrUsed =
        s.lr * args.gamma ^ k := by
  intro es
  induction es with
  | nil => intro s k hk; simp at hk
  | cons e rest ih =>
    intro s k hk
    cases k with
    | zero => simp [runLoop]
    | succ m =>
      simp only [runLoop, List.getD_cons_succ]
      rw [ih _ m (by simpa using hk)]
      show s.lr * args.gamma * args.gamma ^ m = s.lr * args.gamma ^ (m + 1)
      ring

/-- Each pass through the epoch loop runs the schedule step exactly once:
the loop's final learning rate is the incoming one decayed once per
visited epoch. -/
theorem runLoop_final_lr (o : Oracle P O) (args : Args)
    (tkw ekw : LoaderKwargs) (dsT dsE : List Sample) :
    ∀ (es : List Int) (s : RunState P O),
      (runLoop o args tkw ekw dsT dsE es s).1.lr =
        s.lr * args.gamma ^ es.length := by
  intro es
  induction es with
  | nil => intro s; simp [runLoop]
  | cons e rest ih =>
    intro s
    simp only [runLoop, List.length_cons, ih]
    show s.lr * args.gamma * args.gamma ^ rest.length =
      s.lr * args.gamma ^ (rest.length + 1)
    ring

/-- Under `dry_run`, every recorded epoch processed exactly batch 0 in
training, while its evaluation summary still covers the full evaluation
split. -/
theorem runLoop_dry_records (o : Oracle P O) (args : Args)
    (tkw ekw : LoaderKwargs) (dsT dsE : List Sample)
    (hd : args.dry_run = true) (hds : dsT ≠ []) :
    ∀ (es : List Int) (s : RunState P O) (k : Nat), k < es.length →
      ((runLoop o args tkw ekw dsT dsE es s).2.getD k noRecord).processed =
        [0] ∧
      ((runLoop o args tkw ekw dsT dsE es s).2.getD k
          noRecord).evalSummary.total = dsE.length := by
  intro es
  induction es with
  | nil => intro s k hk; simp at hk
  | cons e rest ih =>
    intro s k hk
    cases k with
    | zero =>
      simp only [runLoop, List.getD_cons_zero]
      constructor
      · rcases htb : (epochBatches tkw s.rng dsT).1 with _ | ⟨b, bs⟩
        · exact absurd htb (epochBatches_ne_nil tkw s.rng dsT hds)
        · show (trainGo o args e dsT.length (b :: bs).length s.lr 0
              s.net.params s.opt (b :: bs)).processed = [0]
          exact (trainGo_dry_processed o args e dsT.length (b :: bs).length
            s.lr s.net.params s.opt b bs hd).1
      · rfl
    | succ m =>
      simp only [runLoop, List.getD_cons_succ]
      exact ih _ m (by simpa using hk)

/-- When the model output is a vector of log-probabilities (every entry
at most 0), the per-sample negative log-likelihood is non-negative. -/
theorem nll_nonneg (out : List ℚ) (t : Nat) (h : ∀ x ∈ out, x ≤ 0) :
    0 ≤ nll out t := by
  unfold nll
  rcases lt_or_ge t out.length with ht | ht
  · have hm := h (out.get ⟨t, ht⟩) (out.get_mem t ht)
    rw [List.getD_eq_get out 0 ht]
    linarith
  · rw [List.getD_eq_default out 0 ht]
    norm_num

/-- A batch's correct-prediction count never exceeds its size. -/
theorem batchCorrect_le (o : Oracle P O) (p : P) (b : List Sample) :
    batchCorrect o p b ≤ b.length :=
  List.countP_le_length _

/-- Summed batch losses over the chunked dataset equal the per-sample
loss sum over the whole dataset. -/
theorem chunks_sumLoss (o : Oracle P O) (p : P) (bs : Nat) (ds : List Sample)
    (hbs : 1 ≤ bs) :
    ((chunks bs ds).map (batchSumLoss o p)).sum =
      (ds.map fun s => nll (o.forward p false s.img) s.lab).sum := by
  conv_rhs => rw [← chunks_flatten bs hbs ds]
  rw [List.map_flatten, List.sum_flatten, List.map_map]
  rfl

/-- Summed batch correct counts over the chunked dataset equal the
dataset-wide count of correctly classified samples. -/
theorem chunks_correct (o : Oracle P O) (p : P) (bs : Nat) (ds : List Sample)
    (hbs : 1 ≤ bs) :
    ((chunks bs ds).map (batchCorrect o p)).sum =
      ds.countP (fun s => argmaxIdx (o.forward p false s.img) == s.lab) := by
  conv_rhs => rw [← chunks_flatten bs hbs ds]
  rw [List.countP_flatten]
  rfl

/-- The chunked batch sizes add up to the dataset size. -/
theorem chunks_length_sum (bs : Nat) (ds : List Sample) (hbs : 1 ≤ bs) :
    ((chunks bs ds).map List.length).sum = ds.length := by
  conv_rhs => rw [← chunks_flatten bs hbs ds]
  rw [List.length_flatten]

theorem epochIdxs_length (e : Int) : (epochIdxs e).length = e.toNat := by
  rw [epochIdxs, List.length_map, List.length_range]

/-! ### Claim theorems -/

/-- C1: in every run, the optimizer steps of the 1-indexed epoch `k+1`
(0-indexed trace entry `k`) use learning rate `initial_lr * gamma ^ k`;
the trace has exactly one record per configured epoch, and the schedule
step runs once per epoch — after that epoch's evaluation pass — so the
loop ends with rate `initial_lr * gamma ^ E` while the epoch just
completed used the pre-decay rate throughout. -/
theorem lr_schedule_per_epoch (o : Oracle P O) (args : Args) (ca : Bool)
    (dsT dsE : List Sample) (p0 : P) (o0 : O) (k : Nat)
    (hk : k < (run o args ca dsT dsE p0 o0).trace.length) :
    ((run o args ca dsT dsE p0 o0).trace.getD k noRecord).lrUsed =
      args.lr * args.gamma ^ k ∧
    (run o args ca dsT dsE p0 o0).trace.length = args.epochs.toNat ∧
    (run o args ca dsT dsE p0 o0).state.lr =
      args.lr * args.gamma ^ args.epochs.toNat := by
  have hlen : (run o args ca dsT dsE p0 o0).trace.length =
      args.epochs.toNat := by
    show (runLoop o args (mkTrainKwargs args ca) (mkTestKwargs args ca)
        dsT dsE (epochIdxs args.epochs)
        { net := { params := p0, trainingMode := true }, opt := o0,
          lr := args.lr, rng := args.seed }).2.length = args.epochs.toNat
    rw [runLoop_length]
    exact epochIdxs_length args.epochs
  refine ⟨?_, hlen, ?_⟩
  · show ((runLoop o args (mkTrainKwargs args ca) (mkTestKwargs args ca)
        dsT dsE (epochIdxs args.epochs)
        { net := { params := p0, trainingMode := true }, opt := o0,
          lr := args.lr, rng := args.seed }).2.getD k noRecord).lrUsed =
      args.lr * args.gamma ^ k
    refine runLoop_lrUsed o args _ _ dsT dsE _ _ k ?_
    rw [epochIdxs_length]
    exact hlen ▸ hk
  · show (runLoop o args (mkTrainKwargs args ca) (mkTestKwargs args ca)
        dsT dsE (epochIdxs args.epochs)
        { net := { params := p0, trainingMode := true }, opt := o0,
          lr := args.lr, rng := args.seed }).1.lr =
      args.lr * args.gamma ^ args.epochs.toNat
    rw [runLoop_final_lr, epochIdxs_length]

/-- C2: with `dry_run` enabled and `log_interval >= 1`, every epoch's
training pass processes exactly one batch — batch index 0 — regardless of
batch size or dataset size, while the same epoch's evaluation summary
still covers the full evaluation split. -/
theorem dry_run_single_batch (o : Oracle P O) (args : Args) (ca : Bool)
    (dsT dsE : List Sample) (p0 : P) (o0 : O) (k : Nat)
    (hd : args.dry_run = true) (hL : 1 ≤ args.log_interval)
    (hds : dsT ≠ [])
    (hk : k < (run o args ca dsT dsE p0 o0).trace.length) :
    ((run o args ca dsT dsE p0 o0).trace.getD k noRecord).processed = [0] ∧
    ((run o args ca dsT dsE p0 o0).trace.getD k
        noRecord).evalSummary.total = dsE.length := by
  have hk' : k < (epochIdxs args.epochs).length := by
    have hlen : (run o args ca dsT dsE p0 o0).trace.length =
        (epochIdxs args.epochs).length := by
      show (runLoop o args (mkTrainKwargs args ca) (mkTestKwargs args ca)
          dsT dsE (epochIdxs args.epochs)
          { net := { params := p0, trainingMode := true }, opt := o0,
            lr := args.lr, rng := args.seed }).2.length = _
      exact runLoop_length o args _ _ dsT dsE _ _
    exact hlen ▸ hk
  exact runLoop_dry_records o args (mkTrainKwargs args ca)
    (mkTestKwargs args ca) dsT dsE hd hds (epochIdxs args.epochs)
    { net := { params := p0, trainingMode := true }, opt := o0,
      lr := args.lr, rng := args.seed } k hk'

/-- C3: over a non-empty evaluation split the cumulative loss is the sum
(not mean) of per-sample negative log-likelihoods over all evaluation
samples, and the reported average loss divides that sum by the true
dataset size — not by batch_count x batch_size — even when the last batch
is smaller. -/
theorem eval_loss_accounting (o : Oracle P O) (net : NetState P) (bs : Nat)
    (ds : List Sample) (hbs : 1 ≤ bs) (hds : ds ≠ []) :
    (testGo o net.params (chunks bs ds) 0 0).1 =
      (ds.map fun s => nll (o.forward net.params false s.img) s.lab).sum ∧
    (test o net (chunks bs ds) ds.length).2.avgLoss =
      (ds.map fun s => nll (o.forward net.params false s.img) s.lab).sum /
        ds.length ∧
    (test o net (chunks bs ds) ds.length).2.total = ds.length := by
  have h1 : (testGo o net.params (chunks bs ds) 0 0).1 =
      (ds.map fun s => nll (o.forward net.params false s.img) s.lab).sum := by
    rw [testGo_eq]
    show 0 + ((chunks bs ds).map (batchSumLoss o net.params)).sum = _
    rw [zero_add]
    exact chunks_sumLoss o net.params bs ds hbs
  refine ⟨h1, ?_, rfl⟩
  show (testGo o net.params (chunks bs ds) 0 0).1 / (ds.length : ℚ) = _
  rw [h1]

/-- C5: at any point of an evaluation pass the cumulative correct count
never exceeds the number of samples processed so far, hence at the end it
never exceeds the evaluation dataset size; the reported accuracy
percentage lies in [0, 100], and — when the model emits log-probabilities
(entries at most 0) — the average loss is non-negative. -/
theorem eval_invariants (o : Oracle P O) (net : NetState P) (bs : Nat)
    (ds : List Sample) (j : Nat) (hbs : 1 ≤ bs) (hds : ds ≠ [])
    (hlog : ∀ i : Nat, ∀ x ∈ o.forward net.params false i, x ≤ 0) :
    (testGo o net.params ((chunks bs ds).take j) 0 0).2 ≤
      (((chunks bs ds).take j).map List.length).sum ∧
    (test o net (chunks bs ds) ds.length).2.correct ≤ ds.length ∧
    0 ≤ (test o net (chunks bs ds) ds.length).2.accuracyPct ∧
    (test o net (chunks bs ds) ds.length).2.accuracyPct ≤ 100 ∧
    0 ≤ (test o net (chunks bs ds) ds.length).2.avgLoss := by
  have hlenpos : 0 < ds.length := List.length_pos.mpr hds
  have hcast : (0 : ℚ) < (ds.length : ℚ) := by exact_mod_cast hlenpos
  have hcorrect : ∀ L : List (List Sample),
      (L.map (batchCorrect o net.params)).sum ≤ (L.map List.length).sum := by
    intro L
    exact List.sum_le_sum fun b _ => batchCorrect_le o net.params b
  have hc : (test o net (chunks bs ds) ds.length).2.correct ≤ ds.length := by
    show (testGo o net.params (chunks bs ds) 0 0).2 ≤ ds.length
    rw [testGo_eq]
    show 0 + ((chunks bs ds).map (batchCorrect o net.params)).sum ≤ _
    rw [zero_add, ← chunks_length_sum bs ds hbs]
    exact hcorrect _
  refine ⟨?_, hc, ?_, ?_, ?_⟩
  · rw [testGo_eq]
    show 0 + (((chunks bs ds).take j).map (batchCorrect o net.params)).sum ≤ _
    rw [zero_add]
    exact hcorrect _
  · show (0 : ℚ) ≤ 100 * ((testGo o net.params (chunks bs ds) 0 0).2 : ℚ) /
      (ds.length : ℚ)
    positivity
  · show 100 * ((testGo o net.params (chunks bs ds) 0 0).2 : ℚ) /
      (ds.length : ℚ) ≤ 100
    rw [div_le_iff hcast]
    have : ((testGo o net.params (chunks bs ds) 0 0).2 : ℚ) ≤
        (ds.length : ℚ) := by exact_mod_cast hc
    nlinarith
  · show (0 : ℚ) ≤ (testGo o net.params (chunks bs ds) 0 0).1 /
      (ds.length : ℚ)
    apply div_nonneg _ (le_of_lt hcast)
    rw [testGo_eq]
    show (0 : ℚ) ≤ 0 + ((chunks bs ds).map (batchSumLoss o net.params)).sum
    rw [zero_add]
    apply List.sum_nonneg
    intro x hx
    obtain ⟨b, _, rfl⟩ := List.mem_map.mp hx
    apply List.sum_nonneg
    intro y hy
    obtain ⟨smp, _, rfl⟩ := List.mem_map.mp hy
    exact nll_nonneg _ _ (hlog smp.img)

/-- C9: an evaluation pass never updates any model parameter or optimizer
state: the model state it returns has the same parameters it was given,
with only the train/eval mode flag switched to evaluation mode (the
optimizer is never even passed to it). -/
theorem eval_pass_frame (o : Oracle P O) (net : NetState P)
    (batches : List (List Sample)) (dsSize : Nat) :
    (test o net batches dsSize).1.params = net.params ∧
    (test o net batches dsSize).1.trainingMode = false :=
  ⟨rfl, rfl⟩

/-- C6: in a non-dry training pass with `log_interval >= 1` implicit in
the modulus test, a progress observation is emitted exactly at the batch
indices divisible by `log_interval`; each emitted observation carries the
epoch number, the samples-so-far count, the total training sample count,
and the percentage complete, all computed from its batch index; and
emitting alters no subsequent computation — the resulting parameters and
optimizer state are independent of the logging cadence. -/
theorem train_logging_observational (o : Oracle P O) (a : Args) (e : Int)
    (total : Nat) (lr : ℚ) (net : NetState P) (st : O)
    (batches : List (List Sample)) (L1 L2 : Nat) (j : Nat)
    (hd : a.dry_run = false)
    (hj : j < (train o a e total lr net st batches).2.logs.length) :
    (train o a e total lr net st batches).2.logs.map TrainLog.idx =
      (List.range batches.length).filter
        (fun i => i % a.log_interval == 0) ∧
    ((train o a e total lr net st batches).2.logs.getD j noLog).epoch = e ∧
    ((train o a e total lr net st batches).2.logs.getD j
        noLog).totalSamples = total ∧
    ((train o a e total lr net st batches).2.logs.getD j noLog).pct =
      100 * ((train o a e total lr net st batches).2.logs.getD j
        noLog).idx / batches.length ∧
    ((train o a e total lr net st batches).2.logs.getD j
        noLog).samplesSoFar =
      ((train o a e total lr net st batches).2.logs.getD j noLog).idx *
        (batches.getD ((train o a e total lr net st batches).2.logs.getD j
          noLog).idx []).length ∧
    ((train o a e total lr net st batches).2.logs.getD j noLog).idx %
      a.log_interval = 0 ∧
    (train o { a with log_interval := L1 } e total lr net st
        batches).2.params =
      (train o { a with log_interval := L2 } e total lr net st
        batches).2.params ∧
    (train o { a with log_interval := L1 } e total lr net st batches).2.opt =
      (train o { a with log_interval := L2 } e total lr net st
        batches).2.opt := by
  have hgetmem : (train o a e total lr net st batches).2.logs.getD j noLog ∈
      (train o a e total lr net st batches).2.logs := by
    rw [List.getD_eq_get _ _ hj]
    exact List.get_mem _ _ _
  obtain ⟨h1, h2, h3, h4, h5, h6⟩ :=
    trainGo_logs_mem o a e total batches.length lr batches 0 net.params st _
      hgetmem
  have hstate := trainGo_state_log_interval o { a with log_interval := L1 }
    { a with log_interval := L2 } e total batches.length lr hd hd batches 0
    net.params st
  refine ⟨?_, h1, h2, h3, ?_, h6, ?_, ?_⟩
  · show (trainGo o a e total batches.length lr 0 net.params st
        batches).logs.map TrainLog.idx = _
    rw [trainGo_logs_idx o a e total batches.length lr hd batches 0
      net.params st, List.range_eq_range']
  · rw [h5, Nat.sub_zero]
  · exact congrArg Prod.fst hstate
  · exact congrArg Prod.snd hstate

/-- C4 counterexample: at the default configuration the claimed policy
fails on both paths — without the accelerator the training loader does
not shuffle at all (`shuffle=True` lives only in `cuda_kwargs`), and with
the accelerator the evaluation loader shuffles too (`cuda_kwargs` is
merged into `test_kwargs` as well). -/
theorem shuffle_claim_counterexample :
    ¬ specShufflePolicy defaultArgs false ∧
    ¬ specShufflePolicy defaultArgs true := by
  constructor
  · intro h
    exact absurd h.1 (by decide)
  · intro h
    exact absurd h.2 (by decide)

/-- C4 amended: shuffling — driven by the seeded RNG, fresh each epoch —
is applied to the training and the evaluation loader exactly when the
accelerator path is taken; on the non-accelerator path both loaders yield
the dataset in fixed order. -/
theorem shuffle_flags_follow_accelerator (args : Args) (ca : Bool)
    (rng : Nat) (ds : List Sample) :
    ((mkTrainKwargs args ca).shuffle = useCuda args ca) ∧
    ((mkTestKwargs args ca).shuffle = useCuda args ca) ∧
    (epochBatches (mkTrainKwargs args ca) rng ds).1 =
      (if useCuda args ca then chunks args.batch_size (shuffleWith rng ds)
       else chunks args.batch_size ds) ∧
    (epochBatches (mkTestKwargs args ca) rng ds).1 =
      (if useCuda args ca then
        chunks args.test_batch_size (shuffleWith rng ds)
       else chunks args.test_batch_size ds) := by
  by_cases h : useCuda args ca = true
  · simp [mkTrainKwargs, mkTestKwargs, epochBatches, h]
  · simp [mkTrainKwargs, mkTestKwargs, epochBatches, h]

/-- C7: the persisted artifact of a run is determined at the very end of
a successful run only: when the fallible driver returns at all, the saved
artifact is exactly the final parameter state under the fixed filename
when `save_model` is enabled and nothing otherwise; an aborted run
produces no result and hence no artifact. -/
theorem save_iff_success (o : OracleE P O) (args : Args) (ca : Bool)
    (dsT dsE : List Sample) (p0 : P) (o0 : O) :
    (runE o args ca dsT dsE p0 o0).map (fun r => r.saved) =
      (runE o args ca dsT dsE p0 o0).map (fun r =>
        if args.save_model then some ("mnist_cnn.pt", r.state.net.params)
        else none) := by
  show (Except.map _ (runE o args ca dsT dsE p0 o0)) = _
  unfold runE
  cases h : runLoopE o args (mkTrainKwargs args ca) (mkTestKwargs args ca)
      dsT dsE (epochIdxs args.epochs)
      { net := { params := p0, trainingMode := true }, opt := o0,
        lr := args.lr, rng := args.seed } with
  | error err => rfl
  | ok v => rfl

/-- C8: two runs with the same seed, the same configuration, and the same
fixed datasets produce identical training batch orderings in every epoch
— the embedded driver draws all its randomness from the seeded RNG, so
equal inputs give equal orderings. -/
theorem same_seed_same_orderings (o : Oracle P O) (a1 a2 : Args)
    (ca1 ca2 : Bool) (dsT1 dsT2 dsE1 dsE2 : List Sample) (p0 : P) (o0 : O)
    (hargs : a1 = a2) (hca : ca1 = ca2) (hT : dsT1 = dsT2)
    (hE : dsE1 = dsE2) :
    trainOrderings o a1 ca1 dsT1 dsE1 p0 o0 =
      trainOrderings o a2 ca2 dsT2 dsE2 p0 o0 := by
  subst hargs
  subst hca
  subst hT
  subst hE
  rfl

/-- C10: with a non-positive configured epoch count the epoch loop body
never runs — no training pass, no evaluation pass, no schedule step (the
learning rate is still the initial one) — no error is signalled, and when
`save_model` is enabled the artifact still holds the initial, untrained
parameter state. -/
theorem zero_epochs_no_passes (o : OracleE P O) (args : Args) (ca : Bool)
    (dsT dsE : List Sample) (p0 : P) (o0 : O) (h : args.epochs ≤ 0) :
    runE o args ca dsT dsE p0 o0 = Except.ok
      { state := { net := { params := p0, trainingMode := true }, opt := o0,
                   lr := args.lr, rng := args.seed },
        trace := [],
        saved := if args.save_model then some ("mnist_cnn.pt", p0)
                 else none } := by
  have he : epochIdxs args.epochs = [] := by
    unfold epochIdxs
    rw [Int.toNat_of_nonpos h]
    rfl
  unfold runE
  rw [he]
  rfl

/-! ### Witnesses -/

/-- Witness for C1 at a concrete two-epoch run: the second epoch trains
at the once-decayed rate. -/
theorem lr_schedule_per_epoch_witness :
    1 < (run demoOracle cArgs1 false dsTrain3 dsEval5 0 0).trace.length ∧
    ((run demoOracle cArgs1 false dsTrain3 dsEval5 0 0).trace.getD 1
        noRecord).lrUsed = cArgs1.lr * cArgs1.gamma ^ 1 := by
  have hk : 1 < (run demoOracle cArgs1 false dsTrain3 dsEval5
      0 0).trace.length := by decide
  exact ⟨hk, (lr_schedule_per_epoch demoOracle cArgs1 false dsTrain3 dsEval5
    0 0 1 hk).1⟩

/-- Witness for C2 at a concrete dry run over a three-sample training
split chunked in batches of two. -/
theorem dry_run_single_batch_witness :
    cArgs2.dry_run = true ∧ 1 ≤ cArgs2.log_interval ∧ dsTrain3 ≠ [] ∧
    0 < (run demoOracle cArgs2 false dsTrain3 dsEval5 0 0).trace.length ∧
    ((run demoOracle cArgs2 false dsTrain3 dsEval5 0 0).trace.getD 0
        noRecord).processed = [0] ∧
    ((run demoOracle cArgs2 false dsTrain3 dsEval5 0 0).trace.getD 0
        noRecord).evalSummary.total = dsEval5.length := by
  have hk : 0 < (run demoOracle cArgs2 false dsTrain3 dsEval5
      0 0).trace.length := by decide
  have hds : dsTrain3 ≠ [] := by decide
  obtain ⟨h1, h2⟩ := dry_run_single_batch demoOracle cArgs2 false dsTrain3
    dsEval5 0 0 0 rfl (by decide) hds hk
  exact ⟨rfl, by decide, hds, hk, h1, h2⟩

/-- Witness for C3 on a five-sample split with evaluation batch size 2
(so the last batch holds a single sample): the divisor is still 5. -/
theorem eval_loss_accounting_witness :
    1 ≤ 2 ∧ dsEval5 ≠ [] ∧
    (test demoOracle { params := 0, trainingMode := false }
        (chunks 2 dsEval5) dsEval5.length).2.avgLoss =
      (dsEval5.map fun s =>
        nll (demoOracle.forward 0 false s.img) s.lab).sum / dsEval5.length := by
  exact ⟨by decide, by decide,
    (eval_loss_accounting demoOracle { params := 0, trainingMode := false } 2
      dsEval5 (by decide) (by decide)).2.1⟩

/-- Witness for C5 on the same concrete evaluation pass. -/
theorem eval_invariants_witness :
    1 ≤ 2 ∧ dsEval5 ≠ [] ∧
    (test demoOracle { params := 0, trainingMode := false }
        (chunks 2 dsEval5) dsEval5.length).2.correct ≤ dsEval5.length ∧
    (test demoOracle { params := 0, trainingMode := false }
        (chunks 2 dsEval5) dsEval5.length).2.accuracyPct ≤ 100 ∧
    0 ≤ (test demoOracle { params := 0, trainingMode := false }
        (chunks 2 dsEval5) dsEval5.length).2.avgLoss := by
  have hlog : ∀ i : Nat, ∀ x ∈ demoOracle.forward
      ({ params := 0, trainingMode := false } : NetState Nat).params false i,
      x ≤ 0 := by
    intro i x hx
    simp only [demoOracle, List.mem_cons, List.not_mem_nil, or_false] at hx
    rcases hx with h | h | h
    · rw [h]; norm_num
    · rw [h]; norm_num
    · rw [h]
      exact neg_nonpos.mpr (Nat.cast_nonneg _)
  obtain ⟨_, h2, _, h4, h5⟩ := eval_invariants demoOracle
    { params := 0, trainingMode := false } 2 dsEval5 0 (by decide) (by decide)
    hlog
  exact ⟨by decide, by decide, h2, h4, h5⟩

/-- Witness for C6 on a concrete two-batch, non-dry training pass. -/
theorem train_logging_observational_witness :
    defaultArgs.dry_run = false ∧
    0 < (train demoOracle defaultArgs 1 3 1
        { params := 0, trainingMode := true } 0
        (chunks 2 dsTrain3)).2.logs.length ∧
    (train demoOracle defaultArgs 1 3 1 { params := 0, trainingMode := true }
        0 (chunks 2 dsTrain3)).2.logs.map TrainLog.idx =
      (List.range (chunks 2 dsTrain3).length).filter
        (fun i => i % defaultArgs.log_interval == 0) ∧
    ((train demoOracle defaultArgs 1 3 1 { params := 0, trainingMode := true }
        0 (chunks 2 dsTrain3)).2.logs.getD 0 noLog).epoch = 1 := by
  have hj : 0 < (train demoOracle defaultArgs 1 3 1
      { params := 0, trainingMode := true } 0
      (chunks 2 dsTrain3)).2.logs.length := by decide
  obtain ⟨g1, g2, _⟩ := train_logging_observational demoOracle defaultArgs 1 3
    1 { params := 0, trainingMode := true } 0 (chunks 2 dsTrain3) 3 5 0 rfl hj
  exact ⟨rfl, hj, g1, g2⟩

/-- Witness for C8: the two equal-input runs coincide. -/
theorem same_seed_same_orderings_witness :
    defaultArgs = defaultArgs ∧
    trainOrderings demoOracle defaultArgs false dsTrain3 dsEval5 0 0 =
      trainOrderings demoOracle defaultArgs false dsTrain3 dsEval5 0 0 :=
  ⟨rfl, same_seed_same_orderings demoOracle defaultArgs defaultArgs false
    false dsTrain3 dsTrain3 dsEval5 dsEval5 0 0 rfl rfl rfl rfl⟩

/-- Witness for C10 at a concrete configuration with epochs = -3 and
saving enabled: the run exits normally with an empty trace and saves the
initial parameters. -/
theorem zero_epochs_no_passes_witness :
    cArgs10.epochs ≤ 0 ∧
    runE demoOracleE cArgs10 false dsTrain3 dsEval5 0 0 = Except.ok
      { state := { net := { params := 0, trainingMode := true }, opt := 0,
                   lr := cArgs10.lr, rng := cArgs10.seed },
        trace := [],
        saved := if cArgs10.save_model then some ("mnist_cnn.pt", 0)
                 else none } :=
  ⟨by decide, zero_epochs_no_passes demoOracleE cArgs10 false dsTrain3
    dsEval5 0 0 (by decide)⟩

end Mnist
